import Mathlib

/-!
Verification of the recurrence engine of the `projector` task manager.

The definitions below are a shallow embedding of the Go sources:
`database/tasks.go` (task CRUD, recurrence chain, weekly-pattern parsing)
and the validation helpers (`ValidateDate`, `ValidateTaskInput`).

Modelling conventions:
- Go `time.Time` values produced by `time.Parse("2006-01-02", s)` are
  civil dates at midnight UTC.  We model them as a `DateTime` record of
  year/month/day plus a minute-of-day offset; the total order used by
  `time.Time.After`/`Before` is `totalMinutes` (minutes since the civil
  epoch 1970-01-01 00:00 UTC).
- Go `AddDate(y, m, d)` normalizes the month into [1,12] (adjusting the
  year) and then resolves day-of-month overflow against real month
  lengths, exactly as Go's `Date` constructor does when converting the
  field form to an absolute time.  `addDate` below reproduces this with
  an explicit month normalization followed by a fuelled borrow loop
  (`normDays`); the fuel is far larger than any overflow reachable here.
- `sql.NullString` is modelled as a string plus a validity flag;
  `database/sql` error returns become `Except String`.
- `time.Now().Truncate(24 * time.Hour)` (the "current day" used by
  `ValidateDate`) is passed explicitly as a day number `today`.
-/

deriving instance DecidableEq for Except

namespace Projector

/-- Go `isLeap` (Gregorian rule), as used by the `time` package. -/
def isLeap (y : Int) : Bool :=
  decide (y % 4 = 0 ∧ (¬ y % 100 = 0 ∨ y % 400 = 0))

/-- Length in days of month `m` of year `y` (Go `daysIn`). -/
def daysInMonth (y m : Int) : Int :=
  if m = 1 then 31
  else if m = 2 then (if isLeap y then 29 else 28)
  else if m = 3 then 31
  else if m = 4 then 30
  else if m = 5 then 31
  else if m = 6 then 30
  else if m = 7 then 31
  else if m = 8 then 31
  else if m = 9 then 30
  else if m = 10 then 31
  else if m = 11 then 30
  else if m = 12 then 31
  else 30

/-- Days in year `y` that precede the first of month `m` (Go `daysBefore`). -/
def daysBeforeMonth (y m : Int) : Int :=
  let l : Int := if isLeap y then 1 else 0
  if m = 1 then 0
  else if m = 2 then 31
  else if m = 3 then 59 + l
  else if m = 4 then 90 + l
  else if m = 5 then 120 + l
  else if m = 6 then 151 + l
  else if m = 7 then 181 + l
  else if m = 8 then 212 + l
  else if m = 9 then 243 + l
  else if m = 10 then 273 + l
  else if m = 11 then 304 + l
  else if m = 12 then 334 + l
  else 0

/-- Number of leap years in the interval `[0, y)` (signed for `y < 0`). -/
def leapsBefore (y : Int) : Int :=
  (y + 3) / 4 - (y + 99) / 100 + (y + 399) / 400

/-- Civil day number of `y-m-d`, with 1970-01-01 as day 0 (Go absolute time,
shifted to the Unix epoch). -/
def toDays (y m d : Int) : Int :=
  365 * y + leapsBefore y + daysBeforeMonth y m + d - 1
    - (365 * 1970 + leapsBefore 1970)

/-- Go `Weekday()` of a day number: Sunday = 0; 1970-01-01 was a Thursday. -/
def weekdayOfDays (n : Int) : Int := (n + 4) % 7

/-- A Go `time.Time` at date precision plus a minute-of-day offset. -/
structure DateTime where
  year : Int
  month : Int
  day : Int
  minute : Int
deriving DecidableEq, Repr

def toDaysDT (t : DateTime) : Int := toDays t.year t.month t.day

/-- Minutes since 1970-01-01 00:00; the order `time.Time.After` compares by. -/
def totalMinutes (t : DateTime) : Int := 1440 * toDaysDT t + t.minute

def weekdayDT (t : DateTime) : Int := weekdayOfDays (toDaysDT t)

/-- Day-of-month overflow normalization (the borrow loop Go performs when
converting a field form with `day > daysIn(month)` to an absolute time). -/
def normDays : Nat → Int → Int → Int → Int × Int × Int
  | 0, y, m, d => (y, m, d)
  | f + 1, y, m, d =>
    if d > daysInMonth y m then
      if m ≥ 12 then normDays f (y + 1) 1 (d - daysInMonth y m)
      else normDays f y (m + 1) (d - daysInMonth y m)
    else (y, m, d)

def toDays3 (p : Int × Int × Int) : Int := toDays p.1 p.2.1 p.2.2

/-- Go `Time.AddDate(years, months, days)`: add to the civil fields, then
normalize the month into [1,12] and resolve day overflow. -/
def addDate (t : DateTime) (years months days : Int) : DateTime :=
  let m0 : Int := t.month - 1 + months
  let y0 : Int := t.year + years + m0 / 12
  let m1 : Int := m0 % 12 + 1
  let r := normDays 60 y0 m1 (t.day + days)
  ⟨r.1, r.2.1, r.2.2, t.minute⟩

/-- The civil fields are in range (what Go guarantees for any `time.Time`
obtained from parsing or from `AddDate` in the ranges reachable here). -/
def dateOk (t : DateTime) : Prop :=
  1 ≤ t.month ∧ t.month ≤ 12 ∧ 1 ≤ t.day ∧ t.day ≤ daysInMonth t.year t.month

instance (t : DateTime) : Decidable (dateOk t) := by
  unfold dateOk; infer_instance

/-! String helpers mirroring the `strings` package operations used by
`parseWeeklyPattern` (ASCII-faithful; the weekday table is all-ASCII). -/

/-- Go `strings.ToLower`, restricted to ASCII letters. -/
def goToLowerChar (c : Char) : Char :=
  if 'A' ≤ c ∧ c ≤ 'Z' then Char.ofNat (c.toNat + 32) else c

def goToLower (s : String) : List Char := s.data.map goToLowerChar

/-- Go `unicode.IsSpace` on the Latin-1 range. -/
def goIsSpace (c : Char) : Bool :=
  c = ' ' || c = '\t' || c = '\n' || c = '\r' ||
  c.toNat = 11 || c.toNat = 12 || c.toNat = 133 || c.toNat = 160

/-- Go `strings.TrimSpace`. -/
def goTrimSpace (l : List Char) : List Char :=
  ((l.dropWhile goIsSpace).reverse.dropWhile goIsSpace).reverse

/-- Go `strings.Split` with a single-character separator. -/
def splitOnChar (sep : Char) : List Char → List (List Char)
  | [] => [[]]
  | c :: rest =>
    let r := splitOnChar sep rest
    if c = sep then [] :: r
    else
      match r with
      | [] => [[c]]
      | t :: ts => (c :: t) :: ts

/-- The fixed weekday table of `parseWeeklyPattern` (`weekdayMap`). -/
def weekdayLookup (tok : List Char) : Option Int :=
  if tok = "monday".data ∨ tok = "mon".data ∨ tok = "m".data then some 1
  else if tok = "tuesday".data ∨ tok = "tue".data ∨ tok = "tu".data ∨ tok = "t".data then some 2
  else if tok = "wednesday".data ∨ tok = "wed".data ∨ tok = "w".data then some 3
  else if tok = "thursday".data ∨ tok = "thu".data ∨ tok = "th".data ∨ tok = "r".data then some 4
  else if tok = "friday".data ∨ tok = "fri".data ∨ tok = "f".data then some 5
  else if tok = "saturday".data ∨ tok = "sat".data ∨ tok = "sa".data ∨ tok = "s".data then some 6
  else if tok = "sunday".data ∨ tok = "sun".data ∨ tok = "su".data ∨ tok = "u".data then some 0
  else none

/-- Go `parseWeeklyPattern`: lower-case, split on commas, trim each token,
look it up in the weekday table (dropping unknown tokens), then
`sort.Ints` the collected indices.  `sort.Ints` is modelled by insertion
sort: on integers every sorting algorithm yields the same (sorted) list. -/
def parseWeeklyPattern (pattern : String) : List Int :=
  let parts := splitOnChar ',' (goToLower pattern)
  let days := parts.filterMap (fun p => weekdayLookup (goTrimSpace p))
  List.insertionSort (· ≤ ·) days

/-- The `for _, day := range days` loop of `calculateNextWeeklyDate`:
first element strictly greater than `cw`, if any. -/
def findFirstGreater (cw : Int) : List Int → Option Int
  | [] => none
  | d :: rest => if d > cw then some d else findFirstGreater cw rest

/-- Go `calculateNextWeeklyDate`. -/
def calculateNextWeeklyDate (t : DateTime) (pattern : String) :
    Except String DateTime :=
  if pattern = "" then .ok (addDate t 0 0 7)
  else
    let days := parseWeeklyPattern pattern
    if days = [] then .ok (addDate t 0 0 7)
    else
      let cw := weekdayDT t
      match findFirstGreater cw days with
      | some day => .ok (addDate t 0 0 (day - cw))
      | none =>
        let nextWeek := addDate t 0 0 7
        let firstDay := days.headD 0
        let cw2 := weekdayDT nextWeek
        let dta := firstDay - cw2
        let dta2 := if dta < 0 then dta + 7 else dta
        .ok (addDate nextWeek 0 0 dta2)

/-! Parsing and formatting of `YYYY-MM-DD` strings (Go layout `2006-01-02`). -/

def parseDigit (c : Char) : Option Int :=
  if c = '0' then some 0
  else if c = '1' then some 1
  else if c = '2' then some 2
  else if c = '3' then some 3
  else if c = '4' then some 4
  else if c = '5' then some 5
  else if c = '6' then some 6
  else if c = '7' then some 7
  else if c = '8' then some 8
  else if c = '9' then some 9
  else none

def digitChar (n : Int) : Char :=
  if n = 0 then '0'
  else if n = 1 then '1'
  else if n = 2 then '2'
  else if n = 3 then '3'
  else if n = 4 then '4'
  else if n = 5 then '5'
  else if n = 6 then '6'
  else if n = 7 then '7'
  else if n = 8 then '8'
  else if n = 9 then '9'
  else '0'

/-- Go `time.Parse("2006-01-02", s)`: exactly four year digits, two month
digits, two day digits, dashes in between, month and day in range.  The
result is midnight UTC of that civil date. -/
def parseDateChars : List Char → Option DateTime
  | [y1, y2, y3, y4, s1, m1, m2, s2, d1, d2] =>
    if s1 = '-' ∧ s2 = '-' then
      match parseDigit y1, parseDigit y2, parseDigit y3, parseDigit y4,
          parseDigit m1, parseDigit m2, parseDigit d1, parseDigit d2 with
      | some a, some b, some c, some d, some e, some f, some g, some h =>
        let y := ((a * 10 + b) * 10 + c) * 10 + d
        let mo := e * 10 + f
        let da := g * 10 + h
        if 1 ≤ mo ∧ mo ≤ 12 ∧ 1 ≤ da ∧ da ≤ daysInMonth y mo then
          some ⟨y, mo, da, 0⟩
        else none
      | _, _, _, _, _, _, _, _ => none
    else none
  | _ => none

def parseDate (s : String) : Option DateTime := parseDateChars s.data

def pad4 (n : Int) : List Char :=
  [digitChar (n / 1000), digitChar (n / 100 % 10),
   digitChar (n / 10 % 10), digitChar (n % 10)]

def pad2 (n : Int) : List Char :=
  [digitChar (n / 10), digitChar (n % 10)]

/-- Go `Format("2006-01-02")` (years 0–9999, zero padded). -/
def formatDate (t : DateTime) : String :=
  ⟨pad4 t.year ++ '-' :: (pad2 t.month ++ '-' :: pad2 t.day)⟩

/-! The task store (`database/tasks.go`).  The SQLite database is modelled
as a list of rows plus the next auto-increment id; `database/sql` calls
that can only fail on I/O are modelled as succeeding. -/

/-- Go `sql.NullString`. -/
structure NullString where
  str : String
  valid : Bool
deriving DecidableEq, Repr

/-- Go `database.Task` (one row of the `task` table). -/
structure GoTask where
  id : Nat
  projectId : Option Int
  name : String
  note : NullString
  dueDate : NullString
  statusId : Nat
  repeatCount : Nat
  repeatInterval : NullString
  repeatPattern : NullString
  repeatUntil : NullString
  parentTaskId : Option Nat
deriving DecidableEq, Repr

structure Store where
  tasks : List GoTask
  nextId : Nat
deriving DecidableEq, Repr

/-- Go `GetTaskByID` (`nil, nil` for a missing row becomes `none`). -/
def GetTaskByID (st : Store) (taskID : Nat) : Option GoTask :=
  st.tasks.find? (fun t => t.id == taskID)

/-- Byte length of a string (Go `len` on a string). -/
def goStrLen (s : String) : Nat :=
  s.data.foldl (fun n c => n + c.utf8Size) 0

/-- Go `ValidateDate`: empty is allowed; otherwise the string must parse as
`YYYY-MM-DD` and must not lie strictly before the current day (`today` is
the day number of `time.Now().Truncate(24 * time.Hour)`). -/
def ValidateDate (today : Int) (dateStr : String) : Except String String :=
  if dateStr = "" then .ok ""
  else
    match parseDate dateStr with
    | none =>
      .error ("invalid date format: " ++ dateStr ++ ". Expected format: YYYY-MM-DD")
    | some date =>
      if totalMinutes date < 1440 * today then
        .error ("date " ++ dateStr ++ " is in the past")
      else .ok (formatDate date)

/-- Go `ValidateTaskInput`. -/
def ValidateTaskInput (today : Int) (name : String) (_projectID : Option Int)
    (dueDate : String) (statusID : Nat) : Except String Unit :=
  if name = "" then .error "task name is required"
  else if goStrLen name > 255 then .error "task name is too long (max 255 characters)"
  else if statusID = 0 then .error "invalid status ID"
  else if dueDate ≠ "" then
    match ValidateDate today dueDate with
    | .error e => .error ("due date validation failed: " ++ e)
    | .ok _ => .ok ()
  else .ok ()

/-- Go `CreateTask`: validate, then insert the row and return its id. -/
def CreateTask (today : Int) (st : Store) (name note : String)
    (projectID : Option Int) (dueDate : String) (statusID repeatCount : Nat)
    (repeatInterval repeatPattern repeatUntil : String)
    (parentTaskID : Option Nat) : Except String (Nat × Store) :=
  match ValidateTaskInput today name projectID dueDate statusID with
  | .error e => .error e
  | .ok _ =>
    match ValidateDate today dueDate with
    | .error e => .error e
    | .ok validatedDueDate =>
      let newTask : GoTask :=
        { id := st.nextId
          projectId := projectID
          name := name
          note := ⟨note, true⟩
          dueDate := ⟨validatedDueDate, true⟩
          statusId := statusID
          repeatCount := repeatCount
          repeatInterval := ⟨repeatInterval, true⟩
          repeatPattern := ⟨repeatPattern, true⟩
          repeatUntil := ⟨repeatUntil, true⟩
          parentTaskId := parentTaskID }
      .ok (st.nextId, ⟨st.tasks ++ [newTask], st.nextId + 1⟩)

/-- Go `calculateNextDueDate`. -/
def calculateNextDueDate (currentDueDate interval pattern : String) :
    Except String DateTime :=
  if currentDueDate = "" then .error "no current due date"
  else
    match parseDate currentDueDate with
    | none =>
      .error ("parsing time " ++ currentDueDate ++ " as 2006-01-02: cannot parse")
    | some date =>
      if interval = "minute" then .ok { date with minute := date.minute + 1 }
      else if interval = "hour" then .ok { date with minute := date.minute + 60 }
      else if interval = "day" then .ok (addDate date 0 0 1)
      else if interval = "week" then calculateNextWeeklyDate date pattern
      else if interval = "month" then .ok (addDate date 0 1 0)
      else if interval = "year" then .ok (addDate date 1 0 0)
      else .error ("invalid interval: " ++ interval)

/-- Go `CreateNextRepeatedTask`: precondition check, next-date computation,
`repeatUntil` bound, then the insert request via `CreateTask`. -/
def CreateNextRepeatedTask (today : Int) (st : Store) (orig : GoTask) :
    Except String (Nat × Store) :=
  if orig.repeatCount = 0 ∨ orig.repeatInterval.str = "" then
    .error "task is not configured for repetition"
  else
    match calculateNextDueDate orig.dueDate.str orig.repeatInterval.str
        orig.repeatPattern.str with
    | .error e => .error e
    | .ok nextDueDate =>
      if orig.repeatUntil.valid ∧ orig.repeatUntil.str ≠ "" then
        match parseDate orig.repeatUntil.str with
        | some untilDate =>
          if totalMinutes nextDueDate > totalMinutes untilDate then
            .error "repetition limit reached"
          else
            CreateTask today st orig.name orig.note.str orig.projectId
              (formatDate nextDueDate) orig.statusId (orig.repeatCount - 1)
              orig.repeatInterval.str orig.repeatPattern.str
              orig.repeatUntil.str (some orig.id)
        | none =>
          CreateTask today st orig.name orig.note.str orig.projectId
            (formatDate nextDueDate) orig.statusId (orig.repeatCount - 1)
            orig.repeatInterval.str orig.repeatPattern.str
            orig.repeatUntil.str (some orig.id)
      else
        CreateTask today st orig.name orig.note.str orig.projectId
          (formatDate nextDueDate) orig.statusId (orig.repeatCount - 1)
          orig.repeatInterval.str orig.repeatPattern.str
          orig.repeatUntil.str (some orig.id)

/-- The successor row that a successful `CreateNextRepeatedTask` on `orig`
inserts (its values as built by the `CreateTask` call at `tasks.go:217`). -/
def nextOccurrence (st : Store) (orig : GoTask) (nd : DateTime) : GoTask :=
  { id := st.nextId
    projectId := orig.projectId
    name := orig.name
    note := ⟨orig.note.str, true⟩
    dueDate := ⟨formatDate nd, true⟩
    statusId := orig.statusId
    repeatCount := orig.repeatCount - 1
    repeatInterval := ⟨orig.repeatInterval.str, true⟩
    repeatPattern := ⟨orig.repeatPattern.str, true⟩
    repeatUntil := ⟨orig.repeatUntil.str, true⟩
    parentTaskId := some orig.id }

/-- `succ` is the row inserted by a successful advance of `t` (the
recurrence-chain successor relation). -/
def IsSuccessor (today : Int) (t succ : GoTask) : Prop :=
  ∃ (st st2 : Store) (k : Nat),
    CreateNextRepeatedTask today st t = .ok (k, st2) ∧
      st2.tasks = st.tasks ++ [succ]

/-- The `UPDATE task SET status_id = 2 WHERE id = ?` statement. -/
def SetStatusDone (st : Store) (taskID : Nat) : Store :=
  ⟨st.tasks.map (fun t => if t.id = taskID then { t with statusId := 2 } else t),
   st.nextId⟩

/-- Go `MarkTaskAsDone`: load the row, set its status to done, then
best-effort create the next occurrence (a failure there is only logged). -/
def MarkTaskAsDone (today : Int) (st : Store) (taskID : Nat) :
    Except String Store :=
  match GetTaskByID st taskID with
  | none => .error "task not found"
  | some task =>
    let st1 := SetStatusDone st taskID
    if task.repeatCount > 0 ∧ task.repeatInterval.valid then
      match CreateNextRepeatedTask today st1 task with
      | .ok r => .ok r.2
      | .error _ => .ok st1
    else .ok st1

end Projector

namespace Projector

theorem epoch_day : toDays 1970 1 1 = 0 := by decide

/-! Arithmetic facts about the date model. -/

theorem leapsBefore_step (y : Int) :
    leapsBefore (y + 1) = leapsBefore y + (if isLeap y then 1 else 0) := by
  simp only [leapsBefore, isLeap, decide_eq_true_eq]
  split <;> omega

set_option maxHeartbeats 1000000 in
theorem daysInMonth_bounds (y m : Int) :
    28 ≤ daysInMonth y m ∧ daysInMonth y m ≤ 31 := by
  unfold daysInMonth
  split_ifs <;> omega

theorem toDays_day_shift (y m d c : Int) :
    toDays y m (d + c) = toDays y m d + c := by
  unfold toDays; ring

set_option maxHeartbeats 1000000 in
theorem toDays_month_step (y m d : Int) (h1 : 1 ≤ m) (h2 : m ≤ 11) :
    toDays y (m + 1) d = toDays y m d + daysInMonth y m := by
  interval_cases m <;>
    by_cases hL : isLeap y = true <;>
      simp [toDays, daysBeforeMonth, daysInMonth, hL] <;> omega

set_option maxHeartbeats 1000000 in
theorem toDays_year_step (y d : Int) :
    toDays (y + 1) 1 d = toDays y 12 d + 31 := by
  have h := leapsBefore_step y
  by_cases hL : isLeap y = true <;>
    simp [toDays, daysBeforeMonth, hL] at h ⊢ <;> omega

set_option maxHeartbeats 1000000 in
theorem toDays3_normDays (f : Nat) (y m d : Int) (h1 : 1 ≤ m) (h2 : m ≤ 12) :
    toDays3 (normDays f y m d) = toDays y m d := by
  induction f generalizing y m d with
  | zero => rfl
  | succ f ih =>
    unfold normDays
    split
    · split
      · have hm : m = 12 := by omega
        subst hm
        have h31 : daysInMonth y 12 = 31 := by norm_num [daysInMonth]
        rw [h31, ih (y + 1) 1 (d - 31) (by norm_num) (by norm_num)]
        have hy := toDays_year_step y (d - 31)
        have hs2 : toDays y 12 d = toDays y 12 (d - 31) + 31 := by
          have hq := toDays_day_shift y 12 (d - 31) 31
          simpa using hq
        omega
      · rw [ih y (m + 1) (d - daysInMonth y m) (by omega) (by omega)]
        have hms := toDays_month_step y m (d - daysInMonth y m) h1 (by omega)
        have hs2 : toDays y m d =
            toDays y m (d - daysInMonth y m) + daysInMonth y m := by
          have hq := toDays_day_shift y m (d - daysInMonth y m) (daysInMonth y m)
          simpa using hq
        omega
    · rfl

theorem normDays_valid (f : Nat) (y m d : Int) (h1 : 1 ≤ m) (h2 : m ≤ 12)
    (h3 : 1 ≤ d) (h4 : d ≤ 28 * (f : Int) + 28) :
    1 ≤ (normDays f y m d).2.1 ∧ (normDays f y m d).2.1 ≤ 12 ∧
      1 ≤ (normDays f y m d).2.2 ∧
      (normDays f y m d).2.2 ≤
        daysInMonth (normDays f y m d).1 (normDays f y m d).2.1 := by
  induction f generalizing y m d with
  | zero =>
    have hb := daysInMonth_bounds y m
    simp only [normDays]
    refine ⟨h1, h2, h3, ?_⟩
    simp only [Nat.cast_zero] at h4
    omega
  | succ f ih =>
    unfold normDays
    have hb := daysInMonth_bounds y m
    split
    · split
      · refine ih (y + 1) 1 (d - daysInMonth y m) (by norm_num) (by norm_num)
          (by omega) (by push_cast at h4 ⊢; omega)
      · refine ih y (m + 1) (d - daysInMonth y m) (by omega) (by omega)
          (by omega) (by push_cast at h4 ⊢; omega)
    · dsimp only
      exact ⟨h1, h2, h3, by omega⟩

theorem addDate_minute (t : DateTime) (y m d : Int) :
    (addDate t y m d).minute = t.minute := rfl

theorem toDaysDT_addDate_days (t : DateTime) (h : dateOk t) (n : Int) :
    toDaysDT (addDate t 0 0 n) = toDaysDT t + n := by
  obtain ⟨h1, h2, h3, h4⟩ := h
  have e0 : (t.month - 1) / 12 = 0 := by omega
  have e1 : (t.month - 1) % 12 = t.month - 1 := by omega
  have hr : toDaysDT (addDate t 0 0 n) =
      toDays3 (normDays 60 (t.year + 0 + (t.month - 1 + 0) / 12)
        ((t.month - 1 + 0) % 12 + 1) (t.day + n)) := rfl
  rw [hr]
  simp only [add_zero, e0, e1, sub_add_cancel]
  rw [toDays3_normDays 60 t.year t.month (t.day + n) h1 h2]
  exact toDays_day_shift t.year t.month t.day n

theorem dateOk_addDate_days (t : DateTime) (h : dateOk t) (n : Int)
    (hn0 : 0 ≤ n) (hn1 : n ≤ 1000) : dateOk (addDate t 0 0 n) := by
  obtain ⟨h1, h2, h3, h4⟩ := h
  have hb := daysInMonth_bounds t.year t.month
  have e0 : (t.month - 1) / 12 = 0 := by omega
  have e1 : (t.month - 1) % 12 = t.month - 1 := by omega
  have hr : dateOk (addDate t 0 0 n) ↔
      (1 ≤ (normDays 60 (t.year + 0 + (t.month - 1 + 0) / 12)
          ((t.month - 1 + 0) % 12 + 1) (t.day + n)).2.1 ∧
        (normDays 60 (t.year + 0 + (t.month - 1 + 0) / 12)
          ((t.month - 1 + 0) % 12 + 1) (t.day + n)).2.1 ≤ 12 ∧
        1 ≤ (normDays 60 (t.year + 0 + (t.month - 1 + 0) / 12)
          ((t.month - 1 + 0) % 12 + 1) (t.day + n)).2.2 ∧
        (normDays 60 (t.year + 0 + (t.month - 1 + 0) / 12)
            ((t.month - 1 + 0) % 12 + 1) (t.day + n)).2.2 ≤
          daysInMonth
            (normDays 60 (t.year + 0 + (t.month - 1 + 0) / 12)
              ((t.month - 1 + 0) % 12 + 1) (t.day + n)).1
            (normDays 60 (t.year + 0 + (t.month - 1 + 0) / 12)
              ((t.month - 1 + 0) % 12 + 1) (t.day + n)).2.1) := Iff.rfl
  rw [hr]
  simp only [add_zero, e0, e1, sub_add_cancel]
  exact normDays_valid 60 t.year t.month (t.day + n) h1 h2 (by omega)
    (by norm_num; omega)

theorem dbm_year_diff (y m : Int) (h1 : 1 ≤ m) (h2 : m ≤ 12) :
    -1 ≤ daysBeforeMonth (y + 1) m - daysBeforeMonth y m ∧
      daysBeforeMonth (y + 1) m - daysBeforeMonth y m ≤ 1 := by
  by_cases hA : isLeap y = true <;> by_cases hB : isLeap (y + 1) = true <;>
    interval_cases m <;> simp [daysBeforeMonth, hA, hB]

theorem toDays_year_succ_lt (y m d : Int) (h1 : 1 ≤ m) (h2 : m ≤ 12) :
    toDays y m d < toDays (y + 1) m d := by
  have hs := leapsBefore_step y
  have hd := dbm_year_diff y m h1 h2
  unfold toDays
  by_cases hL : isLeap y = true <;> simp [hL] at hs <;> omega

theorem toDaysDT_addDate_month (t : DateTime) (h : dateOk t) :
    toDaysDT t < toDaysDT (addDate t 0 1 0) := by
  obtain ⟨h1, h2, h3, h4⟩ := h
  have hb := daysInMonth_bounds t.year t.month
  have hr : toDaysDT (addDate t 0 1 0) =
      toDays3 (normDays 60 (t.year + 0 + (t.month - 1 + 1) / 12)
        ((t.month - 1 + 1) % 12 + 1) (t.day + 0)) := rfl
  rw [hr]
  simp only [add_zero, sub_add_cancel]
  by_cases hm : t.month = 12
  · rw [hm]
    norm_num
    rw [toDays3_normDays 60 (t.year + 1) 1 t.day (by norm_num) (by norm_num)]
    have := toDays_year_step t.year t.day
    unfold toDaysDT
    rw [hm] at h4 ⊢
    omega
  · have e0 : t.month / 12 = 0 := by omega
    have e1 : t.month % 12 = t.month := by omega
    simp only [e0, e1, add_zero]
    rw [toDays3_normDays 60 t.year (t.month + 1) t.day (by omega) (by omega)]
    have := toDays_month_step t.year t.month t.day h1 (by omega)
    unfold toDaysDT
    omega

theorem toDaysDT_addDate_year (t : DateTime) (h : dateOk t) :
    toDaysDT t < toDaysDT (addDate t 1 0 0) := by
  obtain ⟨h1, h2, h3, h4⟩ := h
  have e0 : (t.month - 1) / 12 = 0 := by omega
  have e1 : (t.month - 1) % 12 = t.month - 1 := by omega
  have hr : toDaysDT (addDate t 1 0 0) =
      toDays3 (normDays 60 (t.year + 1 + (t.month - 1 + 0) / 12)
        ((t.month - 1 + 0) % 12 + 1) (t.day + 0)) := rfl
  rw [hr]
  simp only [add_zero, e0, e1, sub_add_cancel]
  rw [toDays3_normDays 60 (t.year + 1) t.month t.day h1 h2]
  exact toDays_year_succ_lt t.year t.month t.day h1 h2

/-! Facts about digit parsing and date formatting. -/

set_option maxHeartbeats 2000000 in
theorem parseDigit_some (c : Char) (k : Int) (h : parseDigit c = some k) :
    0 ≤ k ∧ k ≤ 9 ∧ digitChar k = c := by
  unfold parseDigit at h
  split_ifs at h <;>
    (injection h with h; subst h; subst_vars;
      refine ⟨by norm_num, by norm_num, ?_⟩; rfl)

theorem pad4_digits (a b c d : Int) (ha : 0 ≤ a ∧ a ≤ 9) (hb : 0 ≤ b ∧ b ≤ 9)
    (hc : 0 ≤ c ∧ c ≤ 9) (hd : 0 ≤ d ∧ d ≤ 9) :
    pad4 (((a * 10 + b) * 10 + c) * 10 + d) =
      [digitChar a, digitChar b, digitChar c, digitChar d] := by
  unfold pad4
  have e1 : (((a * 10 + b) * 10 + c) * 10 + d) / 1000 = a := by omega
  have e2 : (((a * 10 + b) * 10 + c) * 10 + d) / 100 % 10 = b := by omega
  have e3 : (((a * 10 + b) * 10 + c) * 10 + d) / 10 % 10 = c := by omega
  have e4 : (((a * 10 + b) * 10 + c) * 10 + d) % 10 = d := by omega
  rw [e1, e2, e3, e4]

theorem pad2_digits (a b : Int) (ha : 0 ≤ a ∧ a ≤ 9) (hb : 0 ≤ b ∧ b ≤ 9) :
    pad2 (a * 10 + b) = [digitChar a, digitChar b] := by
  unfold pad2
  have e1 : (a * 10 + b) / 10 = a := by omega
  have e2 : (a * 10 + b) % 10 = b := by omega
  rw [e1, e2]

/-- Everything a successful parse guarantees, including that formatting
the parsed value reproduces the input characters. -/
theorem parseDateChars_props (l : List Char) (t : DateTime)
    (h : parseDateChars l = some t) :
    dateOk t ∧ t.minute = 0 ∧ 0 ≤ t.year ∧ t.year ≤ 9999 ∧
      pad4 t.year ++ '-' :: (pad2 t.month ++ '-' :: pad2 t.day) = l ∧
      l ≠ [] := by
  rcases l with _ | ⟨y1, _ | ⟨y2, _ | ⟨y3, _ | ⟨y4, _ | ⟨s1, _ | ⟨m1, _ | ⟨m2,
    _ | ⟨s2, _ | ⟨d1, _ | ⟨d2, _ | ⟨c0, rest⟩⟩⟩⟩⟩⟩⟩⟩⟩⟩⟩ <;>
    try exact Option.noConfusion h
  simp only [parseDateChars] at h
  split_ifs at h with hdash
  rcases ha : parseDigit y1 with _ | a <;> rw [ha] at h <;>
    try exact Option.noConfusion h
  rcases hb : parseDigit y2 with _ | b <;> rw [hb] at h <;>
    try exact Option.noConfusion h
  rcases hc : parseDigit y3 with _ | c <;> rw [hc] at h <;>
    try exact Option.noConfusion h
  rcases hd : parseDigit y4 with _ | d <;> rw [hd] at h <;>
    try exact Option.noConfusion h
  rcases he : parseDigit m1 with _ | e <;> rw [he] at h <;>
    try exact Option.noConfusion h
  rcases hf : parseDigit m2 with _ | f <;> rw [hf] at h <;>
    try exact Option.noConfusion h
  rcases hg : parseDigit d1 with _ | g <;> rw [hg] at h <;>
    try exact Option.noConfusion h
  rcases hh : parseDigit d2 with _ | i <;> rw [hh] at h <;>
    try exact Option.noConfusion h
  simp only at h
  split_ifs at h with hrange
  obtain ⟨hrm1, hrm2, hrd1, hrd2⟩ := hrange
  obtain ⟨ba1, ba2, ba3⟩ := parseDigit_some _ _ ha
  obtain ⟨bb1, bb2, bb3⟩ := parseDigit_some _ _ hb
  obtain ⟨bc1, bc2, bc3⟩ := parseDigit_some _ _ hc
  obtain ⟨bd1, bd2, bd3⟩ := parseDigit_some _ _ hd
  obtain ⟨be1, be2, be3⟩ := parseDigit_some _ _ he
  obtain ⟨bf1, bf2, bf3⟩ := parseDigit_some _ _ hf
  obtain ⟨bg1, bg2, bg3⟩ := parseDigit_some _ _ hg
  obtain ⟨bh1, bh2, bh3⟩ := parseDigit_some _ _ hh
  obtain ⟨hdash1, hdash2⟩ := hdash
  injection h with h
  subst h
  refine ⟨⟨hrm1, hrm2, hrd1, hrd2⟩, rfl, by dsimp only; omega,
    by dsimp only; omega, ?_, by simp⟩
  simp only
  rw [pad4_digits a b c d ⟨ba1, ba2⟩ ⟨bb1, bb2⟩ ⟨bc1, bc2⟩ ⟨bd1, bd2⟩,
    pad2_digits e f ⟨be1, be2⟩ ⟨bf1, bf2⟩,
    pad2_digits g i ⟨bg1, bg2⟩ ⟨bh1, bh2⟩,
    ba3, bb3, bc3, bd3, be3, bf3, bg3, bh3, hdash1, hdash2]
  rfl

theorem parseDate_props (s : String) (t : DateTime) (h : parseDate s = some t) :
    dateOk t ∧ t.minute = 0 ∧ 0 ≤ t.year ∧ t.year ≤ 9999 ∧
      formatDate t = s ∧ s ≠ "" := by
  obtain ⟨hOk, hMin, hY0, hY1, hFmt, hNe⟩ := parseDateChars_props s.data t h
  refine ⟨hOk, hMin, hY0, hY1, ?_, ?_⟩
  · obtain ⟨l⟩ := s
    exact congrArg String.mk hFmt
  · intro hcontra
    subst hcontra
    exact hNe rfl

/-! Facts about the weekly pattern parser and the weekly calculator. -/

theorem weekdayLookup_bounds (tok : List Char) (v : Int)
    (h : weekdayLookup tok = some v) : 0 ≤ v ∧ v ≤ 6 := by
  unfold weekdayLookup at h
  split_ifs at h <;> (injection h with h; omega)

theorem parseWeeklyPattern_mem_bounds (p : String) (v : Int)
    (hv : v ∈ parseWeeklyPattern p) : 0 ≤ v ∧ v ≤ 6 := by
  simp only [parseWeeklyPattern] at hv
  rw [(List.perm_insertionSort _ _).mem_iff, List.mem_filterMap] at hv
  obtain ⟨tok, _, htok⟩ := hv
  exact weekdayLookup_bounds _ _ htok

theorem parseWeeklyPattern_sorted (p : String) :
    List.Sorted (· ≤ ·) (parseWeeklyPattern p) :=
  List.sorted_insertionSort _ _

theorem findFirstGreater_some (cw : Int) (l : List Int) (d : Int)
    (h : findFirstGreater cw l = some d) : d ∈ l ∧ cw < d := by
  induction l with
  | nil => exact Option.noConfusion h
  | cons x xs ih =>
    unfold findFirstGreater at h
    split_ifs at h with hgt
    · injection h with h
      subst h
      exact ⟨List.mem_cons_self _ _, hgt⟩
    · obtain ⟨hmem, hlt⟩ := ih h
      exact ⟨List.mem_cons_of_mem _ hmem, hlt⟩

theorem weekdayDT_bounds (t : DateTime) : 0 ≤ weekdayDT t ∧ weekdayDT t < 7 := by
  unfold weekdayDT weekdayOfDays
  omega

theorem weekdayDT_addDate7 (t : DateTime) (h : dateOk t) :
    weekdayDT (addDate t 0 0 7) = weekdayDT t := by
  unfold weekdayDT weekdayOfDays
  rw [toDaysDT_addDate_days t h 7]
  omega

theorem calculateNextWeeklyDate_increase (t : DateTime) (h : dateOk t)
    (pat : String) (res : DateTime)
    (hr : calculateNextWeeklyDate t pat = .ok res) :
    toDaysDT t < toDaysDT res ∧ res.minute = t.minute := by
  simp only [calculateNextWeeklyDate] at hr
  split at hr
  · injection hr with hr
    subst hr
    rw [toDaysDT_addDate_days t h 7, addDate_minute]
    omega
  · split at hr
    · injection hr with hr
      subst hr
      rw [toDaysDT_addDate_days t h 7, addDate_minute]
      omega
    · split at hr
      case _ day heq =>
        obtain ⟨hmem, hlt⟩ := findFirstGreater_some _ _ _ heq
        injection hr with hr
        subst hr
        rw [toDaysDT_addDate_days t h (day - weekdayDT t), addDate_minute]
        omega
      case _ heq =>
        injection hr with hr
        subst hr
        rename_i hne _
        have hok7 : dateOk (addDate t 0 0 7) :=
          dateOk_addDate_days t h 7 (by norm_num) (by norm_num)
        have hhead : (parseWeeklyPattern pat).headD 0 ∈ parseWeeklyPattern pat := by
          cases hp : parseWeeklyPattern pat with
          | nil => exact absurd hp hne
          | cons x xs => simp
        obtain ⟨hfd0, hfd6⟩ :=
          parseWeeklyPattern_mem_bounds pat _ hhead
        obtain ⟨hw0, hw7⟩ := weekdayDT_bounds (addDate t 0 0 7)
        set fd := (parseWeeklyPattern pat).headD 0 with hfd
        set cw2 := weekdayDT (addDate t 0 0 7) with hcw2
        have hdta2 : (0:Int) ≤ (if fd - cw2 < 0 then fd - cw2 + 7 else fd - cw2) := by
          split <;> omega
        rw [toDaysDT_addDate_days (addDate t 0 0 7) hok7 _,
          toDaysDT_addDate_days t h 7, addDate_minute, addDate_minute]
        constructor
        · omega
        · rfl

/-- Shared helper for claim C3: every successful `calculateNextDueDate`
strictly advances the timestamp, and for the day-granular kinds it also
strictly advances the civil date while keeping the midnight time. -/
theorem calculateNextDueDate_increase (cur iv pat : String) (t res : DateTime)
    (hparse : parseDate cur = some t)
    (hcalc : calculateNextDueDate cur iv pat = .ok res) :
    totalMinutes t < totalMinutes res ∧
      (iv ≠ "minute" → iv ≠ "hour" →
        toDaysDT t < toDaysDT res ∧ res.minute = t.minute) ∧
      ((iv = "minute" ∨ iv = "hour") →
        res.year = t.year ∧ res.month = t.month ∧ res.day = t.day) := by
  obtain ⟨hOk, hMin, _, _, _, hne⟩ := parseDate_props cur t hparse
  unfold calculateNextDueDate at hcalc
  rw [if_neg hne, hparse] at hcalc
  simp only at hcalc
  split_ifs at hcalc with h1 h2 h3 h4 h5 h6
  · injection hcalc with hcalc
    subst hcalc
    refine ⟨by unfold totalMinutes toDaysDT; dsimp only; omega, ?_, ?_⟩
    · intro hc _
      exact absurd h1 hc
    · exact fun _ => ⟨rfl, rfl, rfl⟩
  · injection hcalc with hcalc
    subst hcalc
    refine ⟨by unfold totalMinutes toDaysDT; dsimp only; omega, ?_, ?_⟩
    · intro _ hc
      exact absurd h2 hc
    · exact fun _ => ⟨rfl, rfl, rfl⟩
  · injection hcalc with hcalc
    subst hcalc
    have hd := toDaysDT_addDate_days t hOk 1
    have hm := addDate_minute t 0 0 1
    refine ⟨by unfold totalMinutes; omega, fun _ _ => ⟨by omega, hm⟩, ?_⟩
    rintro (hc | hc) <;> exact absurd h3 (by rw [hc]; decide)
  · obtain ⟨hlt, hmin⟩ := calculateNextWeeklyDate_increase t hOk pat res hcalc
    refine ⟨by unfold totalMinutes; omega, fun _ _ => ⟨hlt, hmin⟩, ?_⟩
    rintro (hc | hc) <;> exact absurd h4 (by rw [hc]; decide)
  · injection hcalc with hcalc
    subst hcalc
    have hd := toDaysDT_addDate_month t hOk
    have hm := addDate_minute t 0 1 0
    refine ⟨by unfold totalMinutes; omega, fun _ _ => ⟨hd, hm⟩, ?_⟩
    rintro (hc | hc) <;> exact absurd h5 (by rw [hc]; decide)
  · injection hcalc with hcalc
    subst hcalc
    have hd := toDaysDT_addDate_year t hOk
    have hm := addDate_minute t 1 0 0
    refine ⟨by unfold totalMinutes; omega, fun _ _ => ⟨hd, hm⟩, ?_⟩
    rintro (hc | hc) <;> exact absurd h6 (by rw [hc]; decide)

/-! Characterization of the store operations. -/

theorem formatDate_ne_empty (t : DateTime) : formatDate t ≠ "" := by
  unfold formatDate pad4
  intro hcon
  have hdata := congrArg String.data hcon
  simp at hdata

theorem calculateNextWeeklyDate_ok (t : DateTime) (pat : String) :
    ∃ r, calculateNextWeeklyDate t pat = .ok r := by
  simp only [calculateNextWeeklyDate]
  split
  · exact ⟨_, rfl⟩
  · split
    · exact ⟨_, rfl⟩
    · split
      · exact ⟨_, rfl⟩
      · exact ⟨_, rfl⟩

/-- The only error values `calculateNextDueDate` can produce. -/
theorem calculateNextDueDate_error_shape (cur iv pat e : String)
    (h : calculateNextDueDate cur iv pat = .error e) :
    e = "no current due date" ∨
      (∃ s, e = "parsing time " ++ s ++ " as 2006-01-02: cannot parse") ∨
      (∃ s, e = "invalid interval: " ++ s) := by
  unfold calculateNextDueDate at h
  split at h
  · injection h with h
    exact Or.inl h.symm
  · split at h
    · injection h with h
      exact Or.inr (Or.inl ⟨cur, h.symm⟩)
    · split_ifs at h with h1 h2 h3 h4 h5 h6
      · obtain ⟨r, hr⟩ := calculateNextWeeklyDate_ok _ pat
        rw [hr] at h
        exact Except.noConfusion h
      · injection h with h
        exact Or.inr (Or.inr ⟨iv, h.symm⟩)

/-- The only error values `CreateTask` can produce. -/
theorem CreateTask_error_shape (today : Int) (st : Store) (name note : String)
    (projectID : Option Int) (dueDate : String) (statusID repeatCount : Nat)
    (ri rp ru : String) (pid : Option Nat) (e : String)
    (h : CreateTask today st name note projectID dueDate statusID repeatCount
      ri rp ru pid = .error e) :
    e = "task name is required" ∨
      e = "task name is too long (max 255 characters)" ∨
      e = "invalid status ID" ∨
      (∃ s, e = "due date validation failed: " ++ s) ∨
      (∃ s, e = "invalid date format: " ++ s ++ ". Expected format: YYYY-MM-DD") ∨
      (∃ s, e = "date " ++ s ++ " is in the past") := by
  unfold CreateTask at h
  split at h
  case _ e2 heq =>
    injection h with h
    subst h
    unfold ValidateTaskInput at heq
    split_ifs at heq <;> try (injection heq with heq; subst heq; tauto)
    split at heq
    case _ e3 heq3 =>
      injection heq with heq
      exact Or.inr (Or.inr (Or.inr (Or.inl ⟨e3, heq.symm⟩)))
    case _ => exact Except.noConfusion heq
  case _ u heq =>
    split at h
    case _ e2 heq2 =>
      injection h with h
      subst h
      unfold ValidateDate at heq2
      split_ifs at heq2 with hv1
      split at heq2
      case _ =>
        injection heq2 with heq2
        exact Or.inr (Or.inr (Or.inr (Or.inr (Or.inl ⟨dueDate, heq2.symm⟩))))
      case _ date hpd =>
        split_ifs at heq2 with hv2
        injection heq2 with heq2
        exact Or.inr (Or.inr (Or.inr (Or.inr (Or.inr ⟨dueDate, heq2.symm⟩))))
    case _ => exact Except.noConfusion h

/-- Strings starting with a character other than the first character of
the precondition error can never equal it. -/
theorem ne_unconfigured_of_head (s : String)
    (h0 : s.data.headD ' ' ≠ 't') :
    s ≠ "task is not configured for repetition" := by
  intro h
  subst h
  exact h0 rfl

/-- Characterization of a successful insert request: the returned id and
the appended row, carrying the validated due-date string. -/
theorem CreateTask_ok_spec (today : Int) (st : Store) (name note : String)
    (projectID : Option Int) (dueDate : String) (statusID repeatCount : Nat)
    (ri rp ru : String) (pid : Option Nat) (k : Nat) (st2 : Store)
    (h : CreateTask today st name note projectID dueDate statusID repeatCount
      ri rp ru pid = .ok (k, st2)) :
    ∃ vd, ValidateDate today dueDate = .ok vd ∧
      k = st.nextId ∧ st2.nextId = st.nextId + 1 ∧
      st2.tasks = st.tasks ++
        [{ id := st.nextId, projectId := projectID, name := name,
           note := ⟨note, true⟩, dueDate := ⟨vd, true⟩, statusId := statusID,
           repeatCount := repeatCount, repeatInterval := ⟨ri, true⟩,
           repeatPattern := ⟨rp, true⟩, repeatUntil := ⟨ru, true⟩,
           parentTaskId := pid }] := by
  unfold CreateTask at h
  split at h
  case _ => exact Except.noConfusion h
  case _ u hvti =>
    split at h
    case _ => exact Except.noConfusion h
    case _ vd hvd =>
      injection h with h
      injection h with h1 h2
      exact ⟨vd, hvd, h1.symm, by rw [← h2], by rw [← h2]⟩

/-- Validating a string that was just produced by `formatDate` returns it
unchanged (when it is accepted at all). -/
theorem ValidateDate_format_ok (today : Int) (nd : DateTime) (vd : String)
    (h : ValidateDate today (formatDate nd) = .ok vd) : vd = formatDate nd := by
  unfold ValidateDate at h
  rw [if_neg (formatDate_ne_empty nd)] at h
  split at h
  case _ => exact Except.noConfusion h
  case _ p hp =>
    split_ifs at h
    injection h with h
    obtain ⟨_, _, _, _, hfmt, _⟩ := parseDate_props _ _ hp
    rw [← h, hfmt]

/-- Full characterization of a successful advance: every field of the
inserted successor row, and that the store grew by exactly that row. -/
theorem CreateNextRepeatedTask_ok (today : Int) (st : Store) (task : GoTask)
    (k : Nat) (st2 : Store)
    (h : CreateNextRepeatedTask today st task = .ok (k, st2)) :
    task.repeatCount ≠ 0 ∧ task.repeatInterval.str ≠ "" ∧
      ∃ nd, calculateNextDueDate task.dueDate.str task.repeatInterval.str
          task.repeatPattern.str = .ok nd ∧
        k = st.nextId ∧ st2.nextId = st.nextId + 1 ∧
        st2.tasks = st.tasks ++ [nextOccurrence st task nd] := by
  unfold CreateNextRepeatedTask at h
  by_cases hpre : (task.repeatCount = 0 ∨ task.repeatInterval.str = "")
  · rw [if_pos hpre] at h
    exact Except.noConfusion h
  · rw [if_neg hpre] at h
    push_neg at hpre
    refine ⟨hpre.1, hpre.2, ?_⟩
    split at h
    case _ => exact Except.noConfusion h
    case _ nd heqc =>
      have hfin : CreateTask today st task.name task.note.str task.projectId
          (formatDate nd) task.statusId (task.repeatCount - 1)
          task.repeatInterval.str task.repeatPattern.str task.repeatUntil.str
          (some task.id) = .ok (k, st2) := by
        split at h
        · split at h
          case _ untilDate hpu =>
            split_ifs at h
            exact h
          case _ => exact h
        · exact h
      obtain ⟨vd, hvd, hk, hnid, htasks⟩ :=
        CreateTask_ok_spec today st task.name task.note.str task.projectId
          (formatDate nd) task.statusId (task.repeatCount - 1)
          task.repeatInterval.str task.repeatPattern.str task.repeatUntil.str
          (some task.id) k st2 hfin
      have hvd2 := ValidateDate_format_ok today nd vd hvd
      subst hvd2
      exact ⟨nd, heqc, hk, hnid, htasks⟩

theorem isSuccessor_fields (today : Int) (t u : GoTask)
    (h : IsSuccessor today t u) :
    t.repeatCount ≠ 0 ∧ u.repeatCount = t.repeatCount - 1 ∧
      u.statusId = t.statusId ∧ u.name = t.name ∧
      u.parentTaskId = some t.id := by
  obtain ⟨st, st2, k, hok, happ⟩ := h
  obtain ⟨hc, hi, nd, hcalc, hk, hnid, htasks⟩ :=
    CreateNextRepeatedTask_ok today st t k st2 hok
  rw [htasks] at happ
  have hu : nextOccurrence st t nd = u := by
    have := List.append_cancel_left happ
    injection this with h1 _
  subst hu
  exact ⟨hc, rfl, rfl, rfl, rfl⟩

/-- Along any recurrence chain the repeat count strictly decreases, so a
chain starting at repeat count `n` has at most `n` successors. -/
theorem chain_length_le_repeatCount (today : Int) (t : GoTask)
    (l : List GoTask) (h : List.Chain (IsSuccessor today) t l) :
    l.length ≤ t.repeatCount := by
  induction l generalizing t with
  | nil => simp
  | cons u rest ih =>
    cases h with
    | cons hsucc hrest =>
      obtain ⟨hne, hcount, _, _, _⟩ := isSuccessor_fields today t u hsucc
      have hr := ih u hrest
      simp only [List.length_cons]
      omega

theorem GetTaskByID_setStatus (st : Store) (id : Nat) (task : GoTask)
    (h : GetTaskByID st id = some task) :
    GetTaskByID (SetStatusDone st id) id = some { task with statusId := 2 } := by
  unfold GetTaskByID at h
  unfold GetTaskByID SetStatusDone
  simp only
  rw [List.find?_map]
  have hcomp :
      ((fun t : GoTask => t.id == id) ∘
        fun t : GoTask => if t.id = id then { t with statusId := 2 } else t) =
      fun t : GoTask => t.id == id := by
    funext t
    by_cases hid : t.id = id <;> simp [hid]
  rw [hcomp, h]
  have hid : task.id = id := by
    have := List.find?_some h
    simpa using this
  simp [hid]

theorem GetTaskByID_append_left (tasks1 tasks2 : List GoTask) (n : Nat)
    (id : Nat) (task : GoTask)
    (h : GetTaskByID ⟨tasks1, n⟩ id = some task) (m : Nat) :
    GetTaskByID ⟨tasks1 ++ tasks2, m⟩ id = some task := by
  unfold GetTaskByID at h ⊢
  simp only at h ⊢
  rw [List.find?_append, h]
  rfl

/-- Full characterization of completion: it succeeds for every stored
occurrence, the done write survives in the final store, and no error from
the recurrence chain is ever surfaced. -/
theorem MarkTaskAsDone_ok (today : Int) (st : Store) (id : Nat) (task : GoTask)
    (h : GetTaskByID st id = some task) :
    ∃ st2, MarkTaskAsDone today st id = .ok st2 ∧
      GetTaskByID st2 id = some { task with statusId := 2 } := by
  have hset := GetTaskByID_setStatus st id task h
  unfold MarkTaskAsDone
  rw [h]
  simp only
  split_ifs with hrep
  · cases hc : CreateNextRepeatedTask today (SetStatusDone st id) task with
    | error e => exact ⟨_, rfl, hset⟩
    | ok r =>
      obtain ⟨k, st2⟩ := r
      obtain ⟨_, _, nd, _, _, hnid, htasks⟩ :=
        CreateNextRepeatedTask_ok today _ task k st2 hc
      refine ⟨st2, rfl, ?_⟩
      have hrepr : st2 = ⟨(SetStatusDone st id).tasks ++
          [nextOccurrence (SetStatusDone st id) task nd], st2.nextId⟩ := by
        cases st2
        simp only at htasks ⊢
        rw [htasks]
      rw [hrepr]
      exact GetTaskByID_append_left _ _ (SetStatusDone st id).nextId id _ hset _
  · exact ⟨_, rfl, hset⟩

theorem parse_format_examples :
    parseDate "2025-01-03" = some ⟨2025, 1, 3, 0⟩ ∧
    parseDate "2025-02-30" = none ∧
    formatDate ⟨2025, 1, 3, 0⟩ = "2025-01-03" ∧
    parseWeeklyPattern "mon,wed,fri" = [1, 3, 5] ∧
    parseWeeklyPattern "mon,monday,m" = [1, 1, 1] ∧
    parseWeeklyPattern "Tuesday, Thursday" = [2, 4] := by decide

theorem weekday_examples :
    weekdayOfDays (toDays 2025 1 3) = 5 ∧ weekdayOfDays (toDays 2024 12 30) = 1 := by
  decide

theorem addDate_example_month_overflow :
    addDate ⟨2025, 1, 31, 0⟩ 0 1 0 = ⟨2025, 3, 3, 0⟩ := by decide


/-! Claim theorems. -/

/-- C1: the claim says that for a weekly interval whose configured weekday
set has no member strictly greater than the anchor's weekday, the next due
date is the earliest configured weekday of the immediately following week
(Friday 2025-01-03 with "mon,wed,fri" giving Monday 2025-01-06, three days
later).  The code instead first jumps to the same weekday of the next week
and only then walks forward to the earliest configured day, landing on
2025-01-13 — ten days after the anchor and a full week past the Monday the
claim (and the code's own comment) calls for.  This theorem evaluates the
embedded code at the failing input. -/
theorem c1_cross_week_wrap_code_divergence :
    calculateNextDueDate "2025-01-03" "week" "mon,wed,fri" =
      .ok ⟨2025, 1, 13, 0⟩ ∧
    calculateNextWeeklyDate ⟨2025, 1, 3, 0⟩ "mon,tue,wed,thu,fri" =
      .ok ⟨2025, 1, 13, 0⟩ ∧
    weekdayOfDays (toDays 2025 1 3) = 5 ∧
    toDays 2025 1 13 - toDays 2025 1 3 = 10 ∧
    calculateNextDueDate "2025-01-03" "week" "mon,wed,fri" ≠
      .ok ⟨2025, 1, 6, 0⟩ := by decide

/-- C2 counterexample: the weekly pattern "fri" parses to the singleton
set {5}, yet anchoring on Monday 2024-12-30 advances by 4 days (to Friday
2025-01-03), not by the 7 days the claim asserts for every anchor. -/
theorem c2_counterexample :
    parseWeeklyPattern "fri" = [5] ∧
    calculateNextWeeklyDate ⟨2024, 12, 30, 0⟩ "fri" = .ok ⟨2025, 1, 3, 0⟩ ∧
    weekdayOfDays (toDays 2024 12 30) = 1 ∧
    toDays 2025 1 3 - toDays 2024 12 30 = 4 ∧ (4 : Int) ≠ 7 := by decide

/-- C2 amended: a weekly pattern whose parsed set is the singleton {d}
advances by exactly 7 days only when the anchor already falls on weekday
d; when d is later in the anchor's week it advances by d − cw days, and
when d is earlier it advances by 14 − (cw − d) days (cw being the
anchor's weekday index). -/
theorem c2_singleton_amended (p : String) (t : DateTime) (d : Int)
    (h : dateOk t) (hp : parseWeeklyPattern p = [d]) :
    ∃ res, calculateNextWeeklyDate t p = .ok res ∧
      res.minute = t.minute ∧
      toDaysDT res = toDaysDT t +
        (if weekdayDT t < d then d - weekdayDT t
          else if d = weekdayDT t then 7 else 14 - (weekdayDT t - d)) := by
  have hpne : p ≠ "" := by
    intro hcon
    have hpe : parseWeeklyPattern "" = [] := by decide
    rw [hcon, hpe] at hp
    exact List.noConfusion hp
  have hdmem : d ∈ parseWeeklyPattern p := by
    rw [hp]
    exact List.mem_cons_self _ _
  obtain ⟨hd0, hd6⟩ := parseWeeklyPattern_mem_bounds p d hdmem
  obtain ⟨hw0, hw7⟩ := weekdayDT_bounds t
  unfold calculateNextWeeklyDate
  rw [if_neg hpne, hp]
  dsimp only
  rw [if_neg (by simp : ¬([d] : List Int) = [])]
  by_cases hgt : weekdayDT t < d
  · have hf : findFirstGreater (weekdayDT t) [d] = some d := by
      unfold findFirstGreater
      rw [if_pos hgt]
    rw [hf]
    refine ⟨_, rfl, addDate_minute t 0 0 (d - weekdayDT t), ?_⟩
    rw [toDaysDT_addDate_days t h (d - weekdayDT t), if_pos hgt]
  · have hf : findFirstGreater (weekdayDT t) [d] = none := by
      unfold findFirstGreater
      rw [if_neg hgt]
      rfl
    rw [hf]
    have hok7 := dateOk_addDate_days t h 7 (by norm_num) (by norm_num)
    have hsame := weekdayDT_addDate7 t h
    refine ⟨_, rfl, ?_, ?_⟩
    · rw [addDate_minute, addDate_minute]
    · dsimp only [List.headD]
      rw [hsame, toDaysDT_addDate_days (addDate t 0 0 7) hok7,
        toDaysDT_addDate_days t h 7, if_neg hgt]
      by_cases heq : d = weekdayDT t
      · rw [if_pos heq, if_neg (by omega : ¬(d - weekdayDT t < 0))]
        omega
      · rw [if_neg heq, if_pos (by omega : d - weekdayDT t < 0)]
        omega

theorem c2_singleton_amended_witness :
    ∃ res, calculateNextWeeklyDate ⟨2024, 12, 30, 0⟩ "fri" = .ok res ∧
      res.minute = (0 : Int) ∧
      toDaysDT res = toDaysDT ⟨2024, 12, 30, 0⟩ +
        (if weekdayDT ⟨2024, 12, 30, 0⟩ < 5 then 5 - weekdayDT ⟨2024, 12, 30, 0⟩
          else if 5 = weekdayDT ⟨2024, 12, 30, 0⟩ then 7
          else 14 - (weekdayDT ⟨2024, 12, 30, 0⟩ - 5)) :=
  c2_singleton_amended "fri" ⟨2024, 12, 30, 0⟩ 5 (by decide) (by decide)

/-- C8 counterexample: the parser does not de-duplicate.  The input
"mon,monday,m" (three spellings of Monday) yields the list [1, 1, 1], in
which index 1 appears three times, not the single-element result the
claim asserts. -/
theorem c8_counterexample :
    parseWeeklyPattern "mon,monday,m" = [1, 1, 1] ∧
    ¬ (parseWeeklyPattern "mon,monday,m").Nodup ∧
    parseWeeklyPattern "mon,monday,m" ≠ [1] := by decide

/-- C8 amended: for every input the returned weekday list is sorted in
non-decreasing order, but it is not de-duplicated — duplicate spellings
produce duplicate indices ("mon,monday,m" gives [1, 1, 1], whose set of
elements is {1}); empty input, or input with no recognized tokens, yields
the empty list. -/
theorem c8_parser_amended :
    (∀ p : String, List.Sorted (· ≤ ·) (parseWeeklyPattern p)) ∧
    parseWeeklyPattern "mon,monday,m" = [1, 1, 1] ∧
    (∀ v, v ∈ parseWeeklyPattern "mon,monday,m" ↔ v = 1) ∧
    parseWeeklyPattern "" = [] ∧
    parseWeeklyPattern "xyz, hello,42" = [] :=
  ⟨parseWeeklyPattern_sorted, by decide,
    fun v => by
      rw [show parseWeeklyPattern "mon,monday,m" = [1, 1, 1] from by decide]
      simp,
    by decide, by decide⟩

/-- C9: the parser splits on commas, trims and lower-cases each token,
maps tokens through the fixed table (single-letter t meaning Tuesday = 2
and r meaning Thursday = 4), and silently drops unrecognized tokens:
"m,w,f" gives {1,3,5}, "Tuesday, Thursday" gives {2,4}, "xyz,mon" gives
{1}. -/
theorem c9_parser_tokens :
    parseWeeklyPattern "m,w,f" = [1, 3, 5] ∧
    parseWeeklyPattern "Tuesday, Thursday" = [2, 4] ∧
    parseWeeklyPattern "xyz,mon" = [1] ∧
    weekdayLookup "t".data = some 2 ∧
    weekdayLookup "r".data = some 4 ∧
    parseWeeklyPattern "t" = [2] ∧
    parseWeeklyPattern "r" = [4] ∧
    parseWeeklyPattern "MON, wEd ,FRI" = [1, 3, 5] := by decide

/-- C3 counterexample: with interval "minute" the computed next time is
one minute after the anchor, but the stored due-date string of the
successor (the date-only format of that time) is identical to the
predecessor's stored due date "2025-01-03" — not strictly later, so the
"stored dueDate always strictly later" part of the claim fails. -/
theorem c3_counterexample :
    (CreateNextRepeatedTask (toDays 2025 1 3)
        ⟨[⟨3, none, "water plants", ⟨"", false⟩, ⟨"2025-01-03", true⟩, 1, 2,
           ⟨"minute", true⟩, ⟨"", true⟩, ⟨"", false⟩, none⟩], 5⟩
        ⟨3, none, "water plants", ⟨"", false⟩, ⟨"2025-01-03", true⟩, 1, 2,
         ⟨"minute", true⟩, ⟨"", true⟩, ⟨"", false⟩, none⟩).toOption.map
        (fun r => r.2.tasks.map (fun tk => tk.dueDate.str)) =
      some ["2025-01-03", "2025-01-03"] ∧
    calculateNextDueDate "2025-01-03" "minute" "" = .ok ⟨2025, 1, 3, 1⟩ ∧
    formatDate ⟨2025, 1, 3, 1⟩ = "2025-01-03" := by decide

/-- C3 amended: for every parseable anchor and all six interval kinds a
successful `calculateNextDueDate` is strictly greater than the anchor as
a timestamp (the function is deterministic by construction); the civil
date — and hence the stored date-only `dueDate` string — is strictly
later for the day, week, month and year kinds, but for minute and hour
the date part (and so the stored string) is unchanged. -/
theorem c3_next_due_date_amended (cur iv pat : String) (t res : DateTime)
    (hparse : parseDate cur = some t)
    (hsix : iv = "minute" ∨ iv = "hour" ∨ iv = "day" ∨ iv = "week" ∨
      iv = "month" ∨ iv = "year")
    (hcalc : calculateNextDueDate cur iv pat = .ok res) :
    totalMinutes t < totalMinutes res ∧
      ((iv = "day" ∨ iv = "week" ∨ iv = "month" ∨ iv = "year") →
        toDaysDT t < toDaysDT res) ∧
      ((iv = "minute" ∨ iv = "hour") →
        toDaysDT res = toDaysDT t ∧ formatDate res = formatDate t) := by
  obtain ⟨hlt, hday, hmh⟩ :=
    calculateNextDueDate_increase cur iv pat t res hparse hcalc
  refine ⟨hlt, ?_, ?_⟩
  · rintro (hc | hc | hc | hc) <;>
      exact (hday (by rw [hc]; decide) (by rw [hc]; decide)).1
  · intro hg
    obtain ⟨hy, hm, hd⟩ := hmh hg
    constructor
    · unfold toDaysDT
      rw [hy, hm, hd]
    · unfold formatDate
      rw [hy, hm, hd]

theorem c3_next_due_date_amended_witness :
    totalMinutes ⟨2025, 1, 3, 0⟩ < totalMinutes ⟨2025, 1, 4, 0⟩ ∧
      ((("day" : String) = "day" ∨ ("day" : String) = "week" ∨
          ("day" : String) = "month" ∨ ("day" : String) = "year") →
        toDaysDT ⟨2025, 1, 3, 0⟩ < toDaysDT ⟨2025, 1, 4, 0⟩) ∧
      ((("day" : String) = "minute" ∨ ("day" : String) = "hour") →
        toDaysDT ⟨2025, 1, 4, 0⟩ = toDaysDT ⟨2025, 1, 3, 0⟩ ∧
          formatDate ⟨2025, 1, 4, 0⟩ = formatDate ⟨2025, 1, 3, 0⟩) :=
  c3_next_due_date_amended "2025-01-03" "day" "" ⟨2025, 1, 3, 0⟩ ⟨2025, 1, 4, 0⟩
    (by decide) (Or.inr (Or.inr (Or.inl rfl))) (by decide)

/-- C4 counterexample: the successor's status is copied from the
predecessor snapshot, not reset to pending.  A predecessor whose status
id is 3 (in_progress) produces a successor whose status id is also 3,
not the initial status 1. -/
theorem c4_counterexample :
    (CreateNextRepeatedTask (toDays 2025 1 3)
        ⟨[⟨3, none, "water plants", ⟨"", false⟩, ⟨"2025-01-03", true⟩, 3, 2,
           ⟨"day", true⟩, ⟨"", true⟩, ⟨"", false⟩, none⟩], 5⟩
        ⟨3, none, "water plants", ⟨"", false⟩, ⟨"2025-01-03", true⟩, 3, 2,
         ⟨"day", true⟩, ⟨"", true⟩, ⟨"", false⟩, none⟩).toOption.map
        (fun r => r.2.tasks.map (fun tk => tk.statusId)) =
      some [3, 3] ∧ (3 : Nat) ≠ 1 := by decide

/-- C4 amended: whenever advance succeeds, the successor record carries
the same name, note, project reference, repeatInterval, repeatPattern and
repeatUntil as the predecessor, dueDate equal to the formatted computed
next date, repeatCount exactly one less, parentRef the predecessor's id —
and status copied from the predecessor snapshot (not reset to the initial
pending status). -/
theorem c4_successor_fields_amended (today : Int) (st : Store)
    (task : GoTask) (k : Nat) (st2 : Store)
    (h : CreateNextRepeatedTask today st task = .ok (k, st2)) :
    ∃ nd, calculateNextDueDate task.dueDate.str task.repeatInterval.str
        task.repeatPattern.str = .ok nd ∧
      k = st.nextId ∧ st2.nextId = st.nextId + 1 ∧
      st2.tasks = st.tasks ++
        [{ id := st.nextId, projectId := task.projectId, name := task.name,
           note := ⟨task.note.str, true⟩,
           dueDate := ⟨formatDate nd, true⟩, statusId := task.statusId,
           repeatCount := task.repeatCount - 1,
           repeatInterval := ⟨task.repeatInterval.str, true⟩,
           repeatPattern := ⟨task.repeatPattern.str, true⟩,
           repeatUntil := ⟨task.repeatUntil.str, true⟩,
           parentTaskId := some task.id }] :=
  (CreateNextRepeatedTask_ok today st task k st2 h).2.2

theorem c4_successor_fields_amended_witness :
    ∃ nd, calculateNextDueDate "2025-01-03" "day" "" = .ok nd ∧
      (5 : Nat) = 5 ∧ (6 : Nat) = 5 + 1 ∧
      ([⟨3, none, "water plants", ⟨"", false⟩, ⟨"2025-01-03", true⟩, 1, 2,
          ⟨"day", true⟩, ⟨"", true⟩, ⟨"", false⟩, none⟩,
        ⟨5, none, "water plants", ⟨"", true⟩, ⟨"2025-01-04", true⟩, 1, 1,
          ⟨"day", true⟩, ⟨"", true⟩, ⟨"", true⟩, some 3⟩] : List GoTask) =
        [⟨3, none, "water plants", ⟨"", false⟩, ⟨"2025-01-03", true⟩, 1, 2,
          ⟨"day", true⟩, ⟨"", true⟩, ⟨"", false⟩, none⟩] ++
        [{ id := 5, projectId := none, name := "water plants",
           note := ⟨"", true⟩, dueDate := ⟨formatDate nd, true⟩,
           statusId := 1, repeatCount := 1,
           repeatInterval := ⟨"day", true⟩, repeatPattern := ⟨"", true⟩,
           repeatUntil := ⟨"", true⟩, parentTaskId := some 3 }] :=
  c4_successor_fields_amended (toDays 2025 1 3)
    ⟨[⟨3, none, "water plants", ⟨"", false⟩, ⟨"2025-01-03", true⟩, 1, 2,
       ⟨"day", true⟩, ⟨"", true⟩, ⟨"", false⟩, none⟩], 5⟩
    ⟨3, none, "water plants", ⟨"", false⟩, ⟨"2025-01-03", true⟩, 1, 2,
     ⟨"day", true⟩, ⟨"", true⟩, ⟨"", false⟩, none⟩ 5
    ⟨[⟨3, none, "water plants", ⟨"", false⟩, ⟨"2025-01-03", true⟩, 1, 2,
       ⟨"day", true⟩, ⟨"", true⟩, ⟨"", false⟩, none⟩,
      ⟨5, none, "water plants", ⟨"", true⟩, ⟨"2025-01-04", true⟩, 1, 1,
       ⟨"day", true⟩, ⟨"", true⟩, ⟨"", true⟩, some 3⟩], 6⟩
    (by decide)

/-- C5: if `repeatUntil` is set (valid, non-empty, parseable) and the
computed next due date is strictly after it, advance fails with the
"repetition limit reached" termination and no occurrence record is
requested; if the computed next due date is exactly equal to
`repeatUntil`, the until-check passes and the successor creation request
is issued. -/
theorem c5_repeat_until_boundary (today : Int) (st : Store) (task : GoTask)
    (nd u : DateTime) (us : String)
    (hcount : task.repeatCount ≠ 0) (hintv : task.repeatInterval.str ≠ "")
    (huntil : task.repeatUntil = ⟨us, true⟩) (husne : us ≠ "")
    (hu : parseDate us = some u)
    (hnd : calculateNextDueDate task.dueDate.str task.repeatInterval.str
      task.repeatPattern.str = .ok nd) :
    (totalMinutes u < totalMinutes nd →
      CreateNextRepeatedTask today st task = .error "repetition limit reached") ∧
    (totalMinutes nd = totalMinutes u →
      CreateNextRepeatedTask today st task =
        CreateTask today st task.name task.note.str task.projectId
          (formatDate nd) task.statusId (task.repeatCount - 1)
          task.repeatInterval.str task.repeatPattern.str task.repeatUntil.str
          (some task.id)) := by
  have hnotpre : ¬(task.repeatCount = 0 ∨ task.repeatInterval.str = "") := by
    push_neg
    exact ⟨hcount, hintv⟩
  constructor
  · intro hlt
    unfold CreateNextRepeatedTask
    rw [if_neg hnotpre, hnd]
    dsimp only
    rw [huntil]
    dsimp only
    rw [if_pos ⟨rfl, husne⟩, hu]
    dsimp only
    rw [if_pos hlt]
  · intro heqm
    unfold CreateNextRepeatedTask
    rw [if_neg hnotpre, hnd]
    dsimp only
    rw [huntil]
    dsimp only
    rw [if_pos ⟨rfl, husne⟩, hu]
    dsimp only
    rw [if_neg (by omega : ¬ totalMinutes u < totalMinutes nd)]

theorem c5_repeat_until_boundary_witness :
    (totalMinutes ⟨2025, 1, 3, 0⟩ < totalMinutes ⟨2025, 1, 4, 0⟩ →
      CreateNextRepeatedTask 0
          ⟨[], 9⟩
          ⟨3, none, "water plants", ⟨"", false⟩, ⟨"2025-01-03", true⟩, 1, 2,
           ⟨"day", true⟩, ⟨"", true⟩, ⟨"2025-01-03", true⟩, none⟩ =
        .error "repetition limit reached") ∧
    (totalMinutes ⟨2025, 1, 4, 0⟩ = totalMinutes ⟨2025, 1, 3, 0⟩ →
      CreateNextRepeatedTask 0
          ⟨[], 9⟩
          ⟨3, none, "water plants", ⟨"", false⟩, ⟨"2025-01-03", true⟩, 1, 2,
           ⟨"day", true⟩, ⟨"", true⟩, ⟨"2025-01-03", true⟩, none⟩ =
        CreateTask 0 ⟨[], 9⟩ "water plants" "" none
          (formatDate ⟨2025, 1, 4, 0⟩) 1 (2 - 1) "day" "" "2025-01-03"
          (some 3)) :=
  c5_repeat_until_boundary 0 ⟨[], 9⟩
    ⟨3, none, "water plants", ⟨"", false⟩, ⟨"2025-01-03", true⟩, 1, 2,
     ⟨"day", true⟩, ⟨"", true⟩, ⟨"2025-01-03", true⟩, none⟩
    ⟨2025, 1, 4, 0⟩ ⟨2025, 1, 3, 0⟩ "2025-01-03"
    (by decide) (by decide) (by decide) (by decide) (by decide) (by decide)

/-- C6: advance fails with the "not configured for repetition" error
exactly when the occurrence's repeatCount is 0 or its repeatInterval
string is empty, and along any recurrence chain built by successful
advances the number of successors is bounded by the head's repeatCount
(each advance decrements it by one, so the chain halts and the next
advance on a count-0 occurrence fails with that same error). -/
theorem c6_unconfigured_recurrence (today : Int) (st : Store)
    (task : GoTask) (l : List GoTask) :
    (CreateNextRepeatedTask today st task =
        .error "task is not configured for repetition" ↔
      task.repeatCount = 0 ∨ task.repeatInterval.str = "") ∧
    (List.Chain (IsSuccessor today) task l → l.length ≤ task.repeatCount) := by
  refine ⟨⟨?_, ?_⟩, chain_length_le_repeatCount today task l⟩
  · intro he
    by_contra hnot
    unfold CreateNextRepeatedTask at he
    rw [if_neg hnot] at he
    cases hc : calculateNextDueDate task.dueDate.str task.repeatInterval.str
        task.repeatPattern.str with
    | error e =>
      rw [hc] at he
      dsimp only at he
      injection he with he
      rcases calculateNextDueDate_error_shape _ _ _ _ hc with
        h1 | ⟨s, h2⟩ | ⟨s, h3⟩
      · rw [h1] at he
        exact absurd he (by decide)
      · rw [h2] at he
        exact absurd he
          (ne_unconfigured_of_head _ (show ('p' : Char) ≠ 't' by decide))
      · rw [h3] at he
        exact absurd he
          (ne_unconfigured_of_head _ (show ('i' : Char) ≠ 't' by decide))
    | ok nd =>
      rw [hc] at he
      dsimp only at he
      have hct : CreateTask today st task.name task.note.str task.projectId
          (formatDate nd) task.statusId (task.repeatCount - 1)
          task.repeatInterval.str task.repeatPattern.str
          task.repeatUntil.str (some task.id) ≠
            .error "task is not configured for repetition" := by
        intro hbad
        rcases CreateTask_error_shape _ _ _ _ _ _ _ _ _ _ _ _ _ hbad with
          h1 | h2 | h3 | ⟨s, h4⟩ | ⟨s, h5⟩ | ⟨s, h6⟩
        · exact absurd h1 (by decide)
        · exact absurd h2 (by decide)
        · exact absurd h3 (by decide)
        · exact absurd h4.symm
            (ne_unconfigured_of_head _ (show ('d' : Char) ≠ 't' by decide))
        · exact absurd h5.symm
            (ne_unconfigured_of_head _ (show ('i' : Char) ≠ 't' by decide))
        · exact absurd h6.symm
            (ne_unconfigured_of_head _ (show ('d' : Char) ≠ 't' by decide))
      split at he
      · split at he
        case _ untilDate hpu =>
          split_ifs at he with hafter
          · injection he with he
            exact absurd he (by decide)
          · exact hct he
        case _ => exact hct he
      · exact hct he
  · intro hpre
    unfold CreateNextRepeatedTask
    rw [if_pos hpre]

theorem c6_unconfigured_recurrence_witness :
    (CreateNextRepeatedTask 0 ⟨[], 9⟩
        ⟨3, none, "water plants", ⟨"", false⟩, ⟨"2025-01-03", true⟩, 1, 0,
         ⟨"day", true⟩, ⟨"", true⟩, ⟨"", false⟩, none⟩ =
        .error "task is not configured for repetition" ↔
      (0 : Nat) = 0 ∨ ("day" : String) = "") ∧
    (List.Chain (IsSuccessor 0)
        ⟨3, none, "water plants", ⟨"", false⟩, ⟨"2025-01-03", true⟩, 1, 0,
         ⟨"day", true⟩, ⟨"", true⟩, ⟨"", false⟩, none⟩ [] →
      ([] : List GoTask).length ≤ 0) :=
  c6_unconfigured_recurrence 0 ⟨[], 9⟩
    ⟨3, none, "water plants", ⟨"", false⟩, ⟨"2025-01-03", true⟩, 1, 0,
     ⟨"day", true⟩, ⟨"", true⟩, ⟨"", false⟩, none⟩ []

/-- C7: completion always succeeds for a stored occurrence.  Whatever the
recurrence chain does — including any failure of the next-date
computation or of the successor insert — `MarkTaskAsDone` returns
success, and the already-applied done write (status 2) is present in the
final store, never rolled back. -/
theorem c7_completion_always_succeeds (today : Int) (st : Store) (id : Nat)
    (task : GoTask) (h : GetTaskByID st id = some task) :
    ∃ st2, MarkTaskAsDone today st id = .ok st2 ∧
      GetTaskByID st2 id = some { task with statusId := 2 } :=
  MarkTaskAsDone_ok today st id task h

theorem c7_completion_always_succeeds_witness :
    ∃ st2, MarkTaskAsDone 0
        ⟨[⟨3, none, "water plants", ⟨"", false⟩, ⟨"", false⟩, 1, 2,
           ⟨"day", true⟩, ⟨"", true⟩, ⟨"", false⟩, none⟩], 5⟩ 3 = .ok st2 ∧
      GetTaskByID st2 3 =
        some ⟨3, none, "water plants", ⟨"", false⟩, ⟨"", false⟩, 2, 2,
          ⟨"day", true⟩, ⟨"", true⟩, ⟨"", false⟩, none⟩ :=
  c7_completion_always_succeeds 0
    ⟨[⟨3, none, "water plants", ⟨"", false⟩, ⟨"", false⟩, 1, 2,
       ⟨"day", true⟩, ⟨"", true⟩, ⟨"", false⟩, none⟩], 5⟩ 3
    ⟨3, none, "water plants", ⟨"", false⟩, ⟨"", false⟩, 1, 2,
     ⟨"day", true⟩, ⟨"", true⟩, ⟨"", false⟩, none⟩ (by decide)

/-- C10: `ValidateDate` rejects every well-formed YYYY-MM-DD date lying
strictly before the current day (`today`, the truncated now), `CreateTask`
propagates the rejection (wrapped by the input validator), and hence a
recurring occurrence completed so late that its computed next due date
is still in the past gets no successor while the completion call still
reports success — the chain ends silently (concrete scenario: task due
2025-01-03 with a day interval completed on 2025-06-01). -/
theorem c10_past_date_rejection (today : Int) :
    (∀ s t, parseDate s = some t → totalMinutes t < 1440 * today →
      ValidateDate today s = .error ("date " ++ s ++ " is in the past")) ∧
    (∀ (st : Store) (name note : String) (projectID : Option Int)
        (dueDate : String) (statusID repeatCount : Nat) (ri rp ru : String)
        (pid : Option Nat) (e : String),
      name ≠ "" → goStrLen name ≤ 255 → statusID ≠ 0 → dueDate ≠ "" →
      ValidateDate today dueDate = .error e →
      CreateTask today st name note projectID dueDate statusID repeatCount
          ri rp ru pid =
        .error ("due date validation failed: " ++ e)) ∧
    (MarkTaskAsDone (toDays 2025 6 1)
        ⟨[⟨3, none, "water plants", ⟨"", false⟩, ⟨"2025-01-03", true⟩, 1, 2,
           ⟨"day", true⟩, ⟨"", true⟩, ⟨"", false⟩, none⟩], 5⟩ 3 =
      .ok ⟨[⟨3, none, "water plants", ⟨"", false⟩, ⟨"2025-01-03", true⟩, 2, 2,
            ⟨"day", true⟩, ⟨"", true⟩, ⟨"", false⟩, none⟩], 5⟩) := by
  refine ⟨?_, ?_, by decide⟩
  · intro s t hp hlt
    obtain ⟨_, _, _, _, _, hne⟩ := parseDate_props s t hp
    unfold ValidateDate
    rw [if_neg hne, hp]
    dsimp only
    rw [if_pos hlt]
  · intro st name note projectID dueDate statusID repeatCount ri rp ru pid e
      hname hlen hstat hdd hv
    unfold CreateTask ValidateTaskInput
    rw [if_neg hname, if_neg (by omega : ¬ goStrLen name > 255),
      if_neg hstat, if_pos hdd, hv]

theorem c10_past_date_rejection_witness :
    ValidateDate (toDays 2025 6 1) "2025-01-03" =
      .error ("date " ++ "2025-01-03" ++ " is in the past") ∧
    CreateTask (toDays 2025 6 1) ⟨[], 5⟩ "water plants" "" none "2025-01-03"
        1 2 "day" "" "" none =
      .error ("due date validation failed: " ++
        ("date " ++ "2025-01-03" ++ " is in the past")) := by
  have h := c10_past_date_rejection (toDays 2025 6 1)
  exact ⟨h.1 "2025-01-03" ⟨2025, 1, 3, 0⟩ (by decide) (by decide),
    h.2.1 ⟨[], 5⟩ "water plants" "" none "2025-01-03" 1 2 "day" "" "" none
      ("date " ++ "2025-01-03" ++ " is in the past")
      (by decide) (by decide) (by decide) (by decide)
      (h.1 "2025-01-03" ⟨2025, 1, 3, 0⟩ (by decide) (by decide))⟩

end Projector
